/-
Verification of the concurrent evaluate-retry-short-circuit-checkpoint engine
of check_nft_ownership.py (layerist/nft-ownership-checker).

The embedding translates the Python source directly:

* `retry_on_failure` models the retry decorator (lines 85-128).  A wrapped
  operation is a function from the attempt number (1-based) to either a
  result or a raised exception; the jitter draws of `random.random()` are an
  explicit sequence `u : Nat -> Q` with `0 <= u i < 1`.  The trace records the
  returned value (or the propagated exception, or the fall-through `None`
  when `max_retries = 0`), the number of underlying calls, and the list of
  sleep durations.
* `check_nft_ownership` models the scanner (lines 198-225).  A contract is
  represented by the outcome of the (retry-wrapped) balance call made for it:
  `Except.ok b` when `has_erc721_balance` returns `b`, `Except.error e` when
  it raises.  The stop event is a function from the index of the flag check
  to the observed value.  The function returns the owned flag together with
  the number of evaluation calls performed.
* `validate_addresses` models lines 154-161, parameterized by the
  collaborator functions `web3.is_address` and `web3.to_checksum_address`.
* `takeUntilStop` models the submission loop of `main` (lines 285-290): one
  element is taken per index until the flag is observed true.
* `drainStep`/`drainLoop`/`finalFlush`/`mainDrain` model the drain loop of
  `main` (lines 292-320): each completed future either yields a record or
  raises, in which case the record `(addr, false)` is substituted; records
  are buffered and flushed whenever the buffer reaches the batch size, with
  a final flush of a non-empty partial buffer after the loop.
* `summaryRatioExpr` models line 322, with Python division embedded as a
  fallible operation so that an unguarded division by zero would be `none`.
-/
import Mathlib

/-- Exceptions distinguished by the retry decorator.  The first four are the
default `retry_exceptions` tuple of `retry_on_failure` (lines 89-94); the
last stands for any other exception, which the decorator does not catch. -/
inductive Exc where
  | timeExhausted
  | badFunctionCallOutput
  | contractLogicError
  | ioError
  | unexpectedError
deriving DecidableEq, Repr

/-- Membership in the default `retry_exceptions` tuple (lines 89-94). -/
def retryableExc : Exc → Bool
  | Exc.timeExhausted => true
  | Exc.badFunctionCallOutput => true
  | Exc.contractLogicError => true
  | Exc.ioError => true
  | Exc.unexpectedError => false

/-- What a call of the wrapped function can produce: a returned value, a
propagated exception, or the implicit `None` returned when the `for` loop of
the wrapper body runs zero iterations (`max_retries = 0`). -/
inductive RetryOutcome (α : Type) where
  | ok (v : α)
  | raised (e : Exc)
  | fellThrough
deriving DecidableEq, Repr

/-- Observable trace of one call of the wrapped function: its outcome, the
number of underlying calls of `fn`, and the sleep durations in order. -/
structure RetryTrace (α : Type) where
  result : RetryOutcome α
  calls : Nat
  sleeps : List ℚ
deriving DecidableEq, Repr

/-- One iteration of the wrapper loop of `retry_on_failure` (lines 100-124).
`attempt` is the 1-based loop variable, `remaining` the number of loop
iterations still available after the current one (so `remaining = 0` exactly
when `attempt == max_retries`), `delay` the current backoff delay.  `op i` is
the outcome of the i-th underlying call; `u i` is the `random.random()` draw
of the i-th iteration. -/
def retryAux {α : Type} (op : Nat → Except Exc α) (u : Nat → ℚ) :
    Nat → Nat → ℚ → RetryTrace α
  | _, 0, _ => ⟨RetryOutcome.fellThrough, 0, []⟩
  | attempt, remaining + 1, delay =>
    match op attempt with
    | Except.ok v => ⟨RetryOutcome.ok v, 1, []⟩
    | Except.error e =>
      if retryableExc e then
        if remaining = 0 then ⟨RetryOutcome.raised e, 1, []⟩
        else
          let rest := retryAux op u (attempt + 1) remaining (delay * 2)
          ⟨rest.result, rest.calls + 1,
            delay * (1 + u attempt * (3 / 10)) :: rest.sleeps⟩
      else ⟨RetryOutcome.raised e, 1, []⟩

/-- The retry decorator `retry_on_failure` (lines 85-128) applied to an
operation: start at attempt 1 with `max_retries` attempts available and
`delay = base_delay`. -/
def retry_on_failure {α : Type} (op : Nat → Except Exc α) (u : Nat → ℚ)
    (maxRetries : Nat) (baseDelay : ℚ) : RetryTrace α :=
  retryAux op u 1 maxRetries baseDelay

/-- A contract evaluation counts as positive exactly when the wrapped
balance call returned `True` (line 210). -/
def isPositive : Except Exc Bool → Bool
  | Except.ok true => true
  | _ => false

/-- The `for contract in contracts` loop of `check_nft_ownership`
(lines 206-225).  `c` indexes the successive observations of the stop event.
Returns the owned flag and the number of evaluation calls performed. -/
def scanAux (stop : Nat → Bool) : List (Except Exc Bool) → Nat → Bool × Nat
  | [], _ => (false, 0)
  | o :: rest, c =>
    if stop c then (false, 0)
    else
      match o with
      | Except.ok true => (true, 1)
      | Except.ok false =>
        let p := scanAux stop rest (c + 1)
        (p.1, p.2 + 1)
      | Except.error _ =>
        let p := scanAux stop rest (c + 1)
        (p.1, p.2 + 1)

/-- `check_nft_ownership` (lines 198-225): an initial stop check (line 203)
followed by the contract loop; the address component of the returned pair is
omitted since it is the argument itself. -/
def check_nft_ownership (stop : Nat → Bool) (contracts : List (Except Exc Bool)) :
    Bool × Nat :=
  if stop 0 then (false, 0) else scanAux stop contracts 1

/-- `validate_addresses` (lines 154-161), parameterized by the collaborator
functions `web3.is_address` and `web3.to_checksum_address`: every valid
address is checksummed and appended, invalid ones are skipped, and no
deduplication is performed on the output. -/
def validate_addresses (isAddr : String → Bool) (toChecksum : String → String)
    (addrs : List String) : List String :=
  addrs.filterMap (fun a => if isAddr a then some (toChecksum a) else none)

/-- The submission loop of `main` (lines 285-290) and the drain loop guard
(lines 297-299) share this shape: one element is consumed per index until
the flag is observed true, at which point the loop breaks. -/
def takeUntilStop {α : Type} (stop : Nat → Bool) : List α → Nat → List α
  | [], _ => []
  | a :: rest, i => if stop i then [] else a :: takeUntilStop stop rest (i + 1)

/-- A persisted row: `(address, owns_nft)`. -/
abbrev ResultRec := String × Bool

/-- A completed future as seen by the drain loop: the submitted address and
either the returned record or a raised exception (lines 301-306). -/
abbrev Completion := String × Except Exc ResultRec

/-- The record the drain loop derives from one completed future: the result
of `future.result()`, or `(addr, False)` when it raised (lines 302-306). -/
def toRecord (c : Completion) : ResultRec :=
  match c.2 with
  | Except.ok r => r
  | Except.error _ => (c.1, false)

/-- Orchestrator state of `main`: flushed batches in flush order, the current
buffer, and the running counters (lines 278-280). -/
structure DrainState where
  flushed : List (List ResultRec)
  buffer : List ResultRec
  checked : Nat
  owned : Nat
deriving DecidableEq, Repr

/-- The body of one drain-loop iteration (lines 301-317): derive the record,
append it to the buffer, bump the counters, and flush the buffer when it has
reached the batch size. -/
def drainStep (B : Nat) (s : DrainState) (c : Completion) : DrainState :=
  let r := toRecord c
  let buf := s.buffer ++ [r]
  let ck := s.checked + 1
  let ow := s.owned + (cond r.2 1 0)
  if B ≤ buf.length then ⟨s.flushed ++ [buf], [], ck, ow⟩
  else ⟨s.flushed, buf, ck, ow⟩

/-- The drain loop of `main` (lines 297-317): iterate over completed futures
in completion order, breaking as soon as the stop event is observed true
(lines 298-299).  `i` indexes the successive flag observations. -/
def drainLoop (stop : Nat → Bool) (B : Nat) :
    List Completion → Nat → DrainState → DrainState
  | [], _, s => s
  | c :: rest, i, s =>
    if stop i then s else drainLoop stop B rest (i + 1) (drainStep B s c)

/-- The final flush after the pool exits (lines 319-320): a non-empty buffer
is appended as one last batch, an empty buffer is not flushed
(`append_results` also returns early on empty input, lines 235-236). -/
def finalFlush (s : DrainState) : DrainState :=
  if s.buffer = [] then s else ⟨s.flushed ++ [s.buffer], [], s.checked, s.owned⟩

/-- The orchestrator state at the start of `main`: nothing flushed, empty
buffer, zero counters (lines 278-280). -/
def initState : DrainState := ⟨[], [], 0, 0⟩

/-- The whole drain phase of `main`: run the drain loop from the initial
state over the stream of completions, then perform the final flush. -/
def mainDrain (stop : Nat → Bool) (B : Nat) (completions : List Completion) :
    DrainState :=
  finalFlush (drainLoop stop B completions 0 initState)

/-- Python division, which raises `ZeroDivisionError` on a zero denominator:
embedded as a fallible operation. -/
def pyDiv (a b : ℚ) : Option ℚ :=
  if b = 0 then none else some (a / b)

/-- The summary expression of line 322,
`ratio = owned / checked if checked else 0.0`: the division is evaluated
only under the guard that `checked` is non-zero. -/
def summaryRatioExpr (owned checked : Nat) : Option ℚ :=
  if checked ≠ 0 then pyDiv (owned : ℚ) (checked : ℚ) else some 0

/-- The stop event of a run in which no interrupt ever arrives. -/
def stopFalse : Nat → Bool := fun _ => false

/-- A stop event that is already set at the first observation. -/
def stopTrue : Nat → Bool := fun _ => true

/-- A stop event first observed true at the second observation (index 1). -/
def stopFromOne : Nat → Bool := fun i => decide (1 ≤ i)

/-- A stop event first observed true at the third observation (index 2). -/
def stopFromTwo : Nat → Bool := fun i => decide (2 ≤ i)

/-- Zero jitter draws, an admissible value of `random.random()`. -/
def u0 : Nat → ℚ := fun _ => 0

/-- An operation that raises `ContractLogicError` on every call. -/
def opContractLogic : Nat → Except Exc Bool := fun _ => Except.error Exc.contractLogicError

/-- An operation that raises an exception outside the retry tuple. -/
def opUnexpected : Nat → Except Exc Bool := fun _ => Except.error Exc.unexpectedError

/-- An operation that fails transiently on attempt 1 and succeeds on 2. -/
def opTransientThenOk : Nat → Except Exc Bool :=
  fun n => if n = 1 then Except.error Exc.timeExhausted else Except.ok true

/-- Contract outcomes with the first positive at index 2 (third contract). -/
def contractsW : List (Except Exc Bool) :=
  [Except.ok false, Except.error Exc.ioError, Except.ok true, Except.ok false]

/-- A collaborator validity predicate accepting every string. -/
def isAddrAll : String → Bool := fun _ => true

/-- A collaborator checksum function identifying two distinct raw inputs. -/
def toCkConst : String → String := fun _ => "0xdup"

/-- A collaborator checksum function that is injective on valid inputs. -/
def toCkId : String → String := fun a => a

/-- Five addresses submitted in the cancellation witness. -/
def addrsW : List String := ["a", "b", "c", "d", "e"]

/-- Two completed futures; under `stopFromOne` only the first is drained. -/
def compsC2 : List Completion :=
  [("a", Except.ok ("a", true)), ("b", Except.ok ("b", false))]

/-- Five all-negative completions, the stream of end-to-end scenario B. -/
def comps5 : List Completion :=
  [("a", Except.ok ("a", false)), ("b", Except.ok ("b", false)),
   ("c", Except.ok ("c", false)), ("d", Except.ok ("d", false)),
   ("e", Except.ok ("e", false))]

/-- Characterization of a retry run that succeeds on the (j+1)-th call made
from attempt number `a` with `r` attempts remaining: exactly `j + 1` calls
are made and the sleeps double from `d` with the recorded jitter draws. -/
theorem retryAux_succ {α : Type} (op : Nat → Except Exc α) (u : Nat → ℚ) (v : α) :
    ∀ (j a r : Nat) (d : ℚ), j < r →
      (∀ i, i < j → ∃ e, op (a + i) = Except.error e ∧ retryableExc e = true) →
      op (a + j) = Except.ok v →
      retryAux op u a r d =
        ⟨RetryOutcome.ok v, j + 1,
          (List.range j).map (fun i => d * 2 ^ i * (1 + u (a + i) * (3 / 10)))⟩ := by
  intro j
  induction j with
  | zero =>
    intro a r d hjr _ hok
    obtain ⟨r', rfl⟩ : ∃ r', r = r' + 1 := ⟨r - 1, by omega⟩
    rw [Nat.add_zero] at hok
    simp [retryAux, hok]
  | succ j ih =>
    intro a r d hjr hfail hok
    obtain ⟨e0, he0, hr0⟩ := hfail 0 (Nat.succ_pos j)
    rw [Nat.add_zero] at he0
    obtain ⟨r', rfl⟩ : ∃ r', r = r' + 1 := ⟨r - 1, by omega⟩
    have hr' : j < r' := by omega
    have hrest := ih (a + 1) r' (d * 2) hr'
      (fun i hi => by
        obtain ⟨e, h1, h2⟩ := hfail (i + 1) (by omega)
        refine ⟨e, ?_, h2⟩
        rw [show a + 1 + i = a + (i + 1) by omega]
        exact h1)
      (by rw [show a + 1 + j = a + (j + 1) by omega]; exact hok)
    have hr'ne : ¬ r' = 0 := by omega
    simp only [retryAux, he0, hr0, if_true, hr'ne, if_false, hrest]
    refine congrArg (RetryTrace.mk (RetryOutcome.ok v) (j + 1 + 1)) ?_
    rw [List.range_succ_eq_map, List.map_cons, List.map_map]
    refine congrArg₂ List.cons ?_ ?_
    · rw [Nat.add_zero]; ring
    · refine List.map_congr_left ?_
      intro i _
      simp only [Function.comp_apply, Nat.succ_eq_add_one]
      rw [show a + 1 + i = a + (i + 1) by omega]
      ring

/-- Characterization of a retry run in which every available attempt fails
with a retryable exception: all `r` calls are made, `r - 1` sleeps happen,
and the last exception propagates. -/
theorem retryAux_fail {α : Type} (op : Nat → Except Exc α) (u : Nat → ℚ) :
    ∀ (r : Nat), ∀ (a : Nat) (d : ℚ), 1 ≤ r →
      (∀ i, i < r → ∃ e, op (a + i) = Except.error e ∧ retryableExc e = true) →
      ∃ e, retryableExc e = true ∧
        retryAux op u a r d =
          ⟨RetryOutcome.raised e, r,
            (List.range (r - 1)).map (fun i => d * 2 ^ i * (1 + u (a + i) * (3 / 10)))⟩ := by
  intro r
  induction r with
  | zero => intro a d h1 _; omega
  | succ r' ih =>
    intro a d _ hfail
    obtain ⟨e0, he0, hr0⟩ := hfail 0 (by omega)
    rw [Nat.add_zero] at he0
    by_cases hr' : r' = 0
    · subst hr'
      exact ⟨e0, hr0, by simp [retryAux, he0, hr0]⟩
    · obtain ⟨e, hre, hrest⟩ := ih (a + 1) (d * 2) (by omega)
        (fun i hi => by
          obtain ⟨ee, h1, h2⟩ := hfail (i + 1) (by omega)
          refine ⟨ee, ?_, h2⟩
          rw [show a + 1 + i = a + (i + 1) by omega]
          exact h1)
      refine ⟨e, hre, ?_⟩
      simp only [retryAux, he0, hr0, if_true, hr', if_false, hrest]
      refine congrArg (RetryTrace.mk (RetryOutcome.raised e) (r' + 1)) ?_
      obtain ⟨r'', rfl⟩ : ∃ r'', r' = r'' + 1 := ⟨r' - 1, by omega⟩
      simp only [Nat.add_sub_cancel]
      rw [List.range_succ_eq_map, List.map_cons, List.map_map]
      refine congrArg₂ List.cons ?_ ?_
      · rw [Nat.add_zero]; ring
      · refine List.map_congr_left ?_
        intro i _
        simp only [Function.comp_apply, Nat.succ_eq_add_one]
        rw [show a + 1 + i = a + (i + 1) by omega]
        ring

/-- Claim C4: for an operation failing transiently on its first k-1 calls and
succeeding on the k-th with k at most maxAttempts, the wrapper returns the
success after exactly k calls and k-1 sleeps, the i-th sleep lying in
[baseDelay * 2^(i-1), baseDelay * 2^i * (1 + 3/10)); and when all maxAttempts
calls fail transiently the wrapper ends with the exception propagating
(the Failed outcome) after maxAttempts calls and maxAttempts - 1 sleeps. -/
theorem retry_transient_spec {α : Type} (op : Nat → Except Exc α) (u : Nat → ℚ)
    (maxRetries : Nat) (baseDelay : ℚ)
    (hu : ∀ i, 0 ≤ u i ∧ u i < 1) (hd : 0 < baseDelay) :
    (∀ (k : Nat) (v : α), 1 ≤ k → k ≤ maxRetries →
      (∀ i, 1 ≤ i → i < k → ∃ e, op i = Except.error e ∧ retryableExc e = true) →
      op k = Except.ok v →
      (retry_on_failure op u maxRetries baseDelay).result = RetryOutcome.ok v ∧
      (retry_on_failure op u maxRetries baseDelay).calls = k ∧
      (retry_on_failure op u maxRetries baseDelay).sleeps.length = k - 1 ∧
      (∀ i (h : i < (retry_on_failure op u maxRetries baseDelay).sleeps.length),
        baseDelay * 2 ^ i ≤ (retry_on_failure op u maxRetries baseDelay).sleeps.get ⟨i, h⟩ ∧
        (retry_on_failure op u maxRetries baseDelay).sleeps.get ⟨i, h⟩ <
          baseDelay * 2 ^ (i + 1) * (1 + 3 / 10))) ∧
    (1 ≤ maxRetries →
      (∀ i, 1 ≤ i → i ≤ maxRetries → ∃ e, op i = Except.error e ∧ retryableExc e = true) →
      (∃ e, (retry_on_failure op u maxRetries baseDelay).result = RetryOutcome.raised e ∧
        retryableExc e = true) ∧
      (retry_on_failure op u maxRetries baseDelay).calls = maxRetries ∧
      (retry_on_failure op u maxRetries baseDelay).sleeps.length = maxRetries - 1) := by
  constructor
  · intro k v hk1 hk2 hfail hok
    have hrun := retryAux_succ op u v (k - 1) 1 maxRetries baseDelay (by omega)
      (fun i hi => by
        obtain ⟨e, h1, h2⟩ := hfail (1 + i) (by omega) (by omega)
        exact ⟨e, h1, h2⟩)
      (by rw [show 1 + (k - 1) = k by omega]; exact hok)
    rw [retry_on_failure, hrun]
    refine ⟨rfl, by simp; omega, by simp, ?_⟩
    intro i h
    simp only [List.length_map, List.length_range] at h
    have hget : (List.map (fun i => baseDelay * 2 ^ i * (1 + u (1 + i) * (3 / 10)))
        (List.range (k - 1))).get ⟨i, by simpa using h⟩ =
        baseDelay * 2 ^ i * (1 + u (1 + i) * (3 / 10)) := by
      simp [List.get_eq_getElem]
    simp only [hget]
    obtain ⟨hu0, hu1⟩ := hu (1 + i)
    have hp : (0 : ℚ) < 2 ^ i := by positivity
    constructor
    · have key : baseDelay * 2 ^ i * (1 + u (1 + i) * (3 / 10)) - baseDelay * 2 ^ i
          = baseDelay * 2 ^ i * (u (1 + i) * (3 / 10)) := by ring
      have h1 : 0 ≤ baseDelay * 2 ^ i * (u (1 + i) * (3 / 10)) :=
        mul_nonneg (mul_pos hd hp).le (mul_nonneg hu0 (by norm_num))
      linarith
    · have h3 : u (1 + i) * (3 / 10) < 3 / 10 := by
        have := mul_lt_mul_of_pos_right hu1 (show (0 : ℚ) < 3 / 10 by norm_num)
        linarith
      have h4 : 0 < baseDelay * 2 ^ i * (2 * (1 + 3 / 10) - (1 + u (1 + i) * (3 / 10))) := by
        apply mul_pos (mul_pos hd hp)
        linarith
      have h5 : baseDelay * 2 ^ (i + 1) * (1 + 3 / 10)
          - baseDelay * 2 ^ i * (1 + u (1 + i) * (3 / 10))
          = baseDelay * 2 ^ i * (2 * (1 + 3 / 10) - (1 + u (1 + i) * (3 / 10))) := by ring
      linarith
  · intro hm hfail
    obtain ⟨e, hre, hrun⟩ := retryAux_fail op u maxRetries 1 baseDelay hm
      (fun i hi => by
        obtain ⟨ee, h1, h2⟩ := hfail (1 + i) (by omega) (by omega)
        exact ⟨ee, h1, h2⟩)
    rw [retry_on_failure, hrun]
    exact ⟨⟨e, rfl, hre⟩, rfl, by simp⟩

/-- Witness for claim C4 at a concrete input: the operation fails with a
timeout on attempt 1 and succeeds on attempt 2 with maxAttempts 4, base
delay 3/2 and zero jitter draws: the wrapper succeeds after 2 calls and one
sleep bounded as the claim states. -/
theorem retry_transient_spec_witness :
    (retry_on_failure opTransientThenOk u0 4 (3 / 2)).result = RetryOutcome.ok true ∧
    (retry_on_failure opTransientThenOk u0 4 (3 / 2)).calls = 2 ∧
    (retry_on_failure opTransientThenOk u0 4 (3 / 2)).sleeps.length = 1 := by
  have h := (retry_transient_spec opTransientThenOk u0 4 (3 / 2)
    (fun i => by constructor <;> norm_num [u0]) (by norm_num)).1 2 true
    (by norm_num) (by norm_num)
    (fun i h1 h2 => ⟨Exc.timeExhausted, by
      have : i = 1 := by omega
      subst this
      exact ⟨rfl, rfl⟩⟩)
    rfl
  exact ⟨h.1, h.2.1, h.2.2.1⟩

/-- Counterexample to claim C1 as stated: `ContractLogicError` is a
contract-level rejection, hence a Permanent failure in the sense of the
claim, yet it appears in the default `retry_exceptions` tuple of the
decorator (line 92), so an operation that always raises it is called 4 times
with 3 sleeps instead of returning after exactly 1 call and 0 sleeps. -/
theorem contractLogicError_is_retried :
    (retry_on_failure opContractLogic u0 4 (3 / 2)).calls = 4 ∧
    (retry_on_failure opContractLogic u0 4 (3 / 2)).sleeps.length = 3 ∧
    ¬ ((retry_on_failure opContractLogic u0 4 (3 / 2)).calls = 1 ∧
       (retry_on_failure opContractLogic u0 4 (3 / 2)).sleeps = []) := by
  decide

/-- Claim C1 (amended): an operation whose first call raises an exception
outside the `retry_exceptions` tuple makes the decorator propagate that
exception after exactly 1 underlying call and 0 sleeps, with no retry;
exceptions inside the tuple — including the contract-level rejection
`ContractLogicError` — are instead retried. -/
theorem nonRetryable_propagates_first_call {α : Type} (op : Nat → Except Exc α)
    (u : Nat → ℚ) (m : Nat) (d : ℚ) (e : Exc) (hm : 1 ≤ m)
    (he : retryableExc e = false) (hop : op 1 = Except.error e) :
    (retry_on_failure op u m d).result = RetryOutcome.raised e ∧
    (retry_on_failure op u m d).calls = 1 ∧
    (retry_on_failure op u m d).sleeps = [] := by
  obtain ⟨m', rfl⟩ : ∃ m', m = m' + 1 := ⟨m - 1, by omega⟩
  simp [retry_on_failure, retryAux, hop, he]

/-- Witness for the amended claim C1: an operation raising an exception the
decorator does not catch, with maxAttempts 4: the exception propagates after
one call and no sleep. -/
theorem nonRetryable_propagates_first_call_witness :
    (1 ≤ 4 ∧ retryableExc Exc.unexpectedError = false) ∧
    (retry_on_failure opUnexpected u0 4 (3 / 2)).result = RetryOutcome.raised Exc.unexpectedError ∧
    (retry_on_failure opUnexpected u0 4 (3 / 2)).calls = 1 ∧
    (retry_on_failure opUnexpected u0 4 (3 / 2)).sleeps = [] := by
  have h := nonRetryable_propagates_first_call opUnexpected u0 4 (3 / 2)
    Exc.unexpectedError (by norm_num) rfl rfl
  exact ⟨⟨by norm_num, rfl⟩, h.1, h.2.1, h.2.2⟩

/-- With the stop event never observed true, the contract loop returns the
disjunction of the positives and performs calls up to and including the
first positive, or through the whole list when there is none. -/
theorem scanAux_no_stop (stop : Nat → Bool) (hstop : ∀ i, stop i = false) :
    ∀ (l : List (Except Exc Bool)) (c : Nat),
      scanAux stop l c =
        (l.any isPositive,
          cond (l.any isPositive) (l.findIdx isPositive + 1) l.length) := by
  intro l
  induction l with
  | nil => intro c; simp [scanAux]
  | cons o rest ih =>
    intro c
    match o with
    | Except.ok true =>
      simp [scanAux, hstop c, isPositive, List.findIdx_cons]
    | Except.ok false =>
      rw [scanAux]
      simp only [hstop c, if_false, ih (c + 1), List.any_cons, List.findIdx_cons,
        isPositive, Bool.false_or, List.length_cons]
      cases h : rest.any isPositive <;> simp
    | Except.error e =>
      rw [scanAux]
      simp only [hstop c, if_false, ih (c + 1), List.any_cons, List.findIdx_cons,
        isPositive, Bool.false_or, List.length_cons]
      cases h : rest.any isPositive <;> simp

/-- The contract loop treats an evaluation that raises exactly like one that
returns `False`: the `except` clause of lines 217-223 only logs and
continues. -/
theorem scanAux_error_eq_negative (stop : Nat → Bool) (e : Exc) :
    ∀ (l1 : List (Except Exc Bool)) (c : Nat) (l2 : List (Except Exc Bool)),
      scanAux stop (l1 ++ Except.error e :: l2) c =
        scanAux stop (l1 ++ Except.ok false :: l2) c := by
  intro l1
  induction l1 with
  | nil =>
    intro c l2
    by_cases h : stop c <;> simp [scanAux, h]
  | cons o rest ih =>
    intro c l2
    by_cases h : stop c
    · simp [scanAux, h]
    · match o with
      | Except.ok true => simp [scanAux, h]
      | Except.ok false => simp [scanAux, h, ih (c + 1) l2]
      | Except.error e' => simp [scanAux, h, ih (c + 1) l2]

/-- Claim C3: with cancellation never set, the scanner returns owned=true
exactly when some contract evaluation was positive; it makes exactly
first-positive-index + 1 evaluation calls when a positive exists (so none
strictly after the first positive), and exactly len(contracts) calls when
none does — in particular zero calls for an empty contract list. -/
theorem scanner_short_circuit_spec (stop : Nat → Bool) (hstop : ∀ i, stop i = false)
    (contracts : List (Except Exc Bool)) :
    (check_nft_ownership stop contracts).1 = contracts.any isPositive ∧
    (check_nft_ownership stop contracts).2 =
      cond (contracts.any isPositive) (contracts.findIdx isPositive + 1)
        contracts.length := by
  rw [check_nft_ownership, hstop 0]
  simp [scanAux_no_stop stop hstop contracts 1]

/-- Witness for claim C3: four contract outcomes whose first positive is at
index 2: the scanner reports ownership after exactly 3 evaluation calls. -/
theorem scanner_short_circuit_spec_witness :
    (check_nft_ownership stopFalse contractsW).1 = true ∧
    (check_nft_ownership stopFalse contractsW).2 = 3 := by
  have h := scanner_short_circuit_spec stopFalse (fun _ => rfl) contractsW
  exact ⟨by rw [h.1]; decide, by rw [h.2]; decide⟩

/-- Claim C5: a raising evaluation never escapes the scanner — it behaves
exactly as a Negative outcome in its position, so a later Positive still
yields owned=true; and a scan task that raises at the pool boundary is
converted by the drain loop to the record (addr, false) and the drain of the
remaining completions proceeds unchanged. -/
theorem scan_failure_isolation :
    (∀ (stop : Nat → Bool) (l1 l2 : List (Except Exc Bool)) (e : Exc),
      check_nft_ownership stop (l1 ++ Except.error e :: l2) =
        check_nft_ownership stop (l1 ++ Except.ok false :: l2)) ∧
    (∀ (l1 l2 : List (Except Exc Bool)) (e : Exc),
      (∀ o ∈ l1, isPositive o = false) → l2.any isPositive = true →
      (check_nft_ownership stopFalse (l1 ++ Except.error e :: l2)).1 = true) ∧
    (∀ (stop : Nat → Bool) (B : Nat) (a : String) (e : Exc)
        (rest : List Completion) (i : Nat) (s : DrainState),
      drainLoop stop B ((a, Except.error e) :: rest) i s =
        drainLoop stop B ((a, Except.ok (a, false)) :: rest) i s) := by
  refine ⟨?_, ?_, ?_⟩
  · intro stop l1 l2 e
    rw [check_nft_ownership, check_nft_ownership]
    by_cases h : stop 0
    · simp [h]
    · simp only [h, if_false, scanAux_error_eq_negative stop e l1 1 l2]
  · intro l1 l2 e h1 h2
    have heq := scanAux_error_eq_negative stopFalse e l1 1 l2
    rw [check_nft_ownership]
    simp only [stopFalse, if_false, heq,
      scanAux_no_stop stopFalse (fun _ => rfl) (l1 ++ Except.ok false :: l2) 1]
    simp only [List.any_append, List.any_cons]
    have hl1 : l1.any isPositive = false := by
      simp only [List.any_eq_false]
      intro o ho
      simp [h1 o ho]
    simp [hl1, isPositive, h2]
  · intro stop B a e rest i s
    by_cases h : stop i <;> simp [drainLoop, h, drainStep, toRecord]

/-- Witness for claim C5: a failing second contract is skipped and the later
positive still yields ownership. -/
theorem scan_failure_isolation_witness :
    (check_nft_ownership stopFalse
      ([Except.ok false] ++ Except.error Exc.ioError :: [Except.ok true])).1 = true := by
  exact scan_failure_isolation.2.1 [Except.ok false] [Except.ok true] Exc.ioError
    (by decide) (by decide)


/-- When the buffer has reached the batch size after appending the new
record, the drain-loop body flushes it (lines 313-315). -/
theorem drainStep_eq_flush (B : Nat) (s : DrainState) (c : Completion)
    (h : B ≤ s.buffer.length + 1) :
    drainStep B s c =
      ⟨s.flushed ++ [s.buffer ++ [toRecord c]], [], s.checked + 1,
        s.owned + (cond (toRecord c).2 1 0)⟩ := by
  simp [drainStep, h]

/-- When the buffer is still below the batch size after appending the new
record, the drain-loop body only buffers it. -/
theorem drainStep_eq_nobatch (B : Nat) (s : DrainState) (c : Completion)
    (h : ¬ B ≤ s.buffer.length + 1) :
    drainStep B s c =
      ⟨s.flushed, s.buffer ++ [toRecord c], s.checked + 1,
        s.owned + (cond (toRecord c).2 1 0)⟩ := by
  simp [drainStep, h]

/-- One drain-loop iteration conserves records: everything flushed so far
plus the buffer grows by exactly the record of the processed completion. -/
theorem drainStep_flatten (B : Nat) (s : DrainState) (c : Completion) :
    (drainStep B s c).flushed.flatten ++ (drainStep B s c).buffer =
      s.flushed.flatten ++ s.buffer ++ [toRecord c] := by
  by_cases h : B ≤ s.buffer.length + 1
  · rw [drainStep_eq_flush B s c h]
    simp [List.flatten_append]
  · rw [drainStep_eq_nobatch B s c h]
    simp [List.append_assoc]

/-- The drain loop conserves records: the final flushed-plus-buffer contents
are the initial ones followed by the records of exactly the completions
consumed before the stop flag was observed. -/
theorem drainLoop_flatten (stop : Nat → Bool) (B : Nat) :
    ∀ (l : List Completion) (i : Nat) (s : DrainState),
      (drainLoop stop B l i s).flushed.flatten ++ (drainLoop stop B l i s).buffer =
        s.flushed.flatten ++ s.buffer ++ (takeUntilStop stop l i).map toRecord := by
  intro l
  induction l with
  | nil => intro i s; simp [drainLoop, takeUntilStop]
  | cons c rest ih =>
    intro i s
    by_cases h : stop i
    · simp [drainLoop, takeUntilStop, h]
    · rw [drainLoop, takeUntilStop]
      simp only [h, Bool.false_eq_true, if_false, List.map_cons]
      rw [ih (i + 1) (drainStep B s c), drainStep_flatten]
      simp [List.append_assoc]

/-- One drain-loop iteration preserves the batching invariant: with a
positive batch size, the buffer stays strictly below the batch size and
every flushed batch has length exactly the batch size. -/
theorem drainStep_wf (B : Nat) (s : DrainState) (c : Completion) (hB : 1 ≤ B)
    (h1 : s.buffer.length < B) (h2 : ∀ b ∈ s.flushed, b.length = B) :
    (drainStep B s c).buffer.length < B ∧
      ∀ b ∈ (drainStep B s c).flushed, b.length = B := by
  by_cases h : B ≤ s.buffer.length + 1
  · rw [drainStep_eq_flush B s c h]
    refine ⟨by simpa using hB, ?_⟩
    intro b hb
    rcases List.mem_append.mp hb with hb | hb
    · exact h2 b hb
    · have hbe : b = s.buffer ++ [toRecord c] := by simpa using hb
      subst hbe
      simp only [List.length_append, List.length_cons, List.length_nil]
      omega
  · rw [drainStep_eq_nobatch B s c h]
    refine ⟨?_, h2⟩
    simp only [List.length_append, List.length_cons, List.length_nil]
    omega

/-- The drain loop preserves the batching invariant. -/
theorem drainLoop_wf (stop : Nat → Bool) (B : Nat) (hB : 1 ≤ B) :
    ∀ (l : List Completion) (i : Nat) (s : DrainState),
      s.buffer.length < B → (∀ b ∈ s.flushed, b.length = B) →
      (drainLoop stop B l i s).buffer.length < B ∧
        ∀ b ∈ (drainLoop stop B l i s).flushed, b.length = B := by
  intro l
  induction l with
  | nil => intro i s h1 h2; exact ⟨h1, h2⟩
  | cons c rest ih =>
    intro i s h1 h2
    by_cases h : stop i
    · simp only [drainLoop, h, if_true]
      exact ⟨h1, h2⟩
    · simp only [drainLoop, h, Bool.false_eq_true, if_false]
      obtain ⟨h1', h2'⟩ := drainStep_wf B s c hB h1 h2
      exact ih (i + 1) (drainStep B s c) h1' h2'

/-- The final flush empties the buffer into one last batch (or does nothing
when the buffer is empty) and never loses a record. -/
theorem finalFlush_flatten (s : DrainState) :
    (finalFlush s).flushed.flatten = s.flushed.flatten ++ s.buffer ∧
      (finalFlush s).buffer = [] := by
  by_cases h : s.buffer = [] <;> simp [finalFlush, h, List.flatten_append]

/-- Claim C2 (amended): for every stop schedule, every record that the drain
loop consumed before observing cancellation is persisted — the final flush of
the partial batch is still performed and the flushed output is exactly the
records drained up to that point; however, completions not yet drained when
the flag is observed are not persisted (the loop breaks before reading
them). -/
theorem drained_records_persisted_after_cancel (stop : Nat → Bool) (B : Nat)
    (completions : List Completion) :
    (mainDrain stop B completions).flushed.flatten =
      (takeUntilStop stop completions 0).map toRecord ∧
    (mainDrain stop B completions).buffer = [] := by
  have hj := drainLoop_flatten stop B completions 0 initState
  have hf := finalFlush_flatten (drainLoop stop B completions 0 initState)
  rw [mainDrain]
  refine ⟨?_, hf.2⟩
  rw [hf.1, hj]
  simp [initState]

/-- Counterexample to claim C2 as stated: with the flag set after the first
drain iteration, the second completed future — an already-completed
ResultRecord — is never drained: the persisted output is only the first
record, not the records of all completed scans. -/
theorem cancel_discards_undrained_record :
    (mainDrain stopFromOne 50 compsC2).flushed.flatten = [("a", true)] ∧
    ("b", false) ∈ compsC2.map toRecord ∧
    ("b", false) ∉ (mainDrain stopFromOne 50 compsC2).flushed.flatten := by
  decide

/-- With no cancellation the submission and drain guards consume the whole
list. -/
theorem takeUntilStop_false {α : Type} :
    ∀ (l : List α) (i : Nat), takeUntilStop stopFalse l i = l := by
  intro l
  induction l with
  | nil => intro i; rfl
  | cons c rest ih => intro i; simp [takeUntilStop, stopFalse, ih (i + 1)]

/-- Claim C6: with a positive batch size B and no cancellation, the
concatenation of all flushed batches is exactly the stream of records the
orchestrator received — nothing dropped, nothing double-flushed; every batch
is non-empty of size at most B, and every batch except possibly the last has
size exactly B: flushes happen exactly when the buffer reaches B, plus one
final flush of a non-empty partial batch. -/
theorem batch_flush_exact (B : Nat) (hB : 1 ≤ B) (completions : List Completion) :
    (mainDrain stopFalse B completions).flushed.flatten = completions.map toRecord ∧
    (mainDrain stopFalse B completions).buffer = [] ∧
    (∀ b ∈ (mainDrain stopFalse B completions).flushed, b ≠ [] ∧ b.length ≤ B) ∧
    (∀ b ∈ (mainDrain stopFalse B completions).flushed.dropLast, b.length = B) := by
  have hj := drainLoop_flatten stopFalse B completions 0 initState
  have hwf := drainLoop_wf stopFalse B hB completions 0 initState
    (by simp [initState]; omega) (by simp [initState])
  have hf := finalFlush_flatten (drainLoop stopFalse B completions 0 initState)
  refine ⟨?_, hf.2, ?_, ?_⟩
  · rw [mainDrain, hf.1, hj, takeUntilStop_false]
    simp [initState]
  · rw [mainDrain, finalFlush]
    by_cases h : (drainLoop stopFalse B completions 0 initState).buffer = []
    · simp only [h, if_true]
      intro b hb
      have hlen := hwf.2 b hb
      refine ⟨?_, by omega⟩
      intro hnil
      rw [hnil] at hlen
      simp at hlen
      omega
    · simp only [h, if_false]
      intro b hb
      rcases List.mem_append.mp hb with hb | hb
      · have hlen := hwf.2 b hb
        refine ⟨?_, by omega⟩
        intro hnil
        rw [hnil] at hlen
        simp at hlen
        omega
      · have hbe : b = (drainLoop stopFalse B completions 0 initState).buffer := by
          simpa using hb
        subst hbe
        exact ⟨h, by have := hwf.1; omega⟩
  · rw [mainDrain, finalFlush]
    by_cases h : (drainLoop stopFalse B completions 0 initState).buffer = []
    · simp only [h, if_true]
      intro b hb
      exact hwf.2 b (List.dropLast_subset _ hb)
    · simp only [h, if_false]
      intro b hb
      rw [List.dropLast_concat] at hb
      exact hwf.2 b hb

/-- Witness for claim C6, end-to-end scenario B of the design: batch size 2
with 5 all-negative completions gives exactly 3 flushes of sizes 2, 2, 1
covering every record exactly once. -/
theorem batch_flush_exact_witness :
    (1 ≤ 2 ∧
      (mainDrain stopFalse 2 comps5).flushed.flatten = comps5.map toRecord ∧
      (mainDrain stopFalse 2 comps5).buffer = []) ∧
    (mainDrain stopFalse 2 comps5).flushed.length = 3 ∧
    (mainDrain stopFalse 2 comps5).flushed.map List.length = [2, 2, 1] := by
  have h := batch_flush_exact 2 (by norm_num) comps5
  exact ⟨⟨by norm_num, h.1, h.2.1⟩, by decide, by decide⟩

/-- With a monotone stop flag first observed true by check index `i`, the
submission loop takes at most `i - start` elements from check index
`start` onward. -/
theorem takeUntilStop_length_le {α : Type} (stop : Nat → Bool) (i : Nat)
    (hmono : ∀ j k, j ≤ k → stop j = true → stop k = true)
    (hi : stop i = true) :
    ∀ (l : List α) (start : Nat),
      (takeUntilStop stop l start).length ≤ i - start := by
  intro l
  induction l with
  | nil => intro start; simp [takeUntilStop]
  | cons a rest ih =>
    intro start
    by_cases h : stop start
    · simp [takeUntilStop, h]
    · have hlt : start < i := by
        by_contra hc
        exact h (hmono i start (by omega) hi)
      rw [takeUntilStop]
      simp only [h, Bool.false_eq_true, if_false, List.length_cons]
      have := ih (start + 1)
      omega

/-- Claim C7: once the (monotone) cancellation flag is true, no further
identity is submitted — the number of identities submitted in the whole run
is at most the index of the first check at which the flag was observed true
— and a scan task that starts after the flag is set returns owned=false
immediately, with zero evaluation calls. -/
theorem cancellation_stops_new_work :
    (∀ (stop : Nat → Bool) (addrs : List String) (i : Nat),
      (∀ j k, j ≤ k → stop j = true → stop k = true) → stop i = true →
      (takeUntilStop stop addrs 0).length ≤ i) ∧
    (∀ (stop : Nat → Bool) (contracts : List (Except Exc Bool)),
      stop 0 = true → check_nft_ownership stop contracts = (false, 0)) := by
  constructor
  · intro stop addrs i hmono hi
    have := takeUntilStop_length_le stop i hmono hi addrs 0
    omega
  · intro stop contracts h
    rw [check_nft_ownership, h]
    simp

/-- Witness for claim C7: a flag first true at check index 2 lets at most two
of five addresses be submitted, and a scan started under a set flag performs
no evaluation call. -/
theorem cancellation_stops_new_work_witness :
    (stopFromTwo 2 = true ∧ (takeUntilStop stopFromTwo addrsW 0).length ≤ 2) ∧
    (stopTrue 0 = true ∧
      check_nft_ownership stopTrue [Except.ok true] = (false, 0)) := by
  refine ⟨⟨rfl, ?_⟩, rfl, cancellation_stops_new_work.2 stopTrue [Except.ok true] rfl⟩
  refine cancellation_stops_new_work.1 stopFromTwo addrsW 2 ?_ rfl
  intro j k hjk hj
  simp only [stopFromTwo, decide_eq_true_eq] at hj ⊢
  omega

/-- Counterexample to claim C8 as stated: deduplication happens on the raw
input lines before validation, and `validate_addresses` does not deduplicate
after checksumming, so two distinct raw strings that normalize to the same
checksummed identity are both kept, both submitted (no cancellation), and
hence both evaluated and reported. -/
theorem duplicate_after_checksum :
    validate_addresses isAddrAll toCkConst ["0xAbC", "0xabc"] = ["0xdup", "0xdup"] ∧
    ¬ (validate_addresses isAddrAll toCkConst ["0xAbC", "0xabc"]).Nodup ∧
    (takeUntilStop stopFalse
      (validate_addresses isAddrAll toCkConst ["0xAbC", "0xabc"]) 0).length = 2 := by
  refine ⟨by decide, by decide, by decide⟩

/-- Claim C8 (amended): the raw input lines are already pairwise distinct
(`load_lines` returns a set), so whenever the checksum normalization is
injective on valid addresses, the validated list has no duplicates and each
distinct identity is submitted, evaluated and reported at most once; but two
distinct raw spellings with the same checksum are each kept. -/
theorem validate_nodup_of_injective (isAddr : String → Bool)
    (toChecksum : String → String) (addrs : List String) (hnd : addrs.Nodup)
    (hinj : ∀ a b, isAddr a = true → isAddr b = true →
      toChecksum a = toChecksum b → a = b) :
    (validate_addresses isAddr toChecksum addrs).Nodup := by
  induction addrs with
  | nil => simp [validate_addresses]
  | cons a rest ih =>
    obtain ⟨hna, hnr⟩ := List.nodup_cons.mp hnd
    rw [validate_addresses, List.filterMap_cons]
    by_cases h : isAddr a
    · simp only [h, if_true]
      rw [List.nodup_cons]
      refine ⟨?_, ih hnr⟩
      intro hmem
      rw [List.mem_filterMap] at hmem
      obtain ⟨b, hbr, hbeq⟩ := hmem
      by_cases hb : isAddr b
      · simp only [hb, if_true, Option.some_inj] at hbeq
        have : b = a := hinj b a hb h hbeq
        subst this
        exact hna hbr
      · simp [hb] at hbeq
    · simp only [h, if_false]
      exact ih hnr

/-- Witness for the amended claim C8: distinct raw inputs with an injective
checksum function validate to a duplicate-free identity list. -/
theorem validate_nodup_of_injective_witness :
    (["0xAbC", "0xabc"] : List String).Nodup ∧
    (validate_addresses isAddrAll toCkId ["0xAbC", "0xabc"]).Nodup := by
  refine ⟨by decide, validate_nodup_of_injective isAddrAll toCkId _ (by decide) ?_⟩
  intro a b _ _ h
  simpa [toCkId] using h

/-- Claim C9: a run that checks zero identities — an empty completion
stream, or cancellation observed before any completion is drained — still
produces its summary without error: the checked counter is 0, the division
`owned / checked` is guarded by `if checked` and is not evaluated, and the
reported ratio is 0. -/
theorem empty_run_ratio_zero :
    (∀ (stop : Nat → Bool) (B : Nat),
      (mainDrain stop B []).checked = 0 ∧
      summaryRatioExpr (mainDrain stop B []).owned (mainDrain stop B []).checked =
        some 0) ∧
    (∀ (stop : Nat → Bool) (B : Nat) (completions : List Completion),
      stop 0 = true →
      (mainDrain stop B completions).checked = 0 ∧
      summaryRatioExpr (mainDrain stop B completions).owned
        (mainDrain stop B completions).checked = some 0) := by
  have hinit : ∀ (stop : Nat → Bool) (B : Nat), mainDrain stop B [] = initState := by
    intro stop B
    rw [mainDrain, drainLoop, finalFlush]
    simp [initState]
  constructor
  · intro stop B
    rw [hinit stop B]
    exact ⟨rfl, by simp [summaryRatioExpr, initState]⟩
  · intro stop B completions h
    match completions with
    | [] =>
      rw [hinit stop B]
      exact ⟨rfl, by simp [summaryRatioExpr, initState]⟩
    | c :: rest =>
      have hdrain : mainDrain stop B (c :: rest) = initState := by
        rw [mainDrain, drainLoop, h, finalFlush]
        simp [initState]
      rw [hdrain]
      exact ⟨rfl, by simp [summaryRatioExpr, initState]⟩

/-- Witness for claim C9: with the flag already set at the first drain
check, nothing is checked and the summary reports ratio 0 with no division
error. -/
theorem empty_run_ratio_zero_witness :
    stopTrue 0 = true ∧
    (mainDrain stopTrue 50 compsC2).checked = 0 ∧
    summaryRatioExpr (mainDrain stopTrue 50 compsC2).owned
      (mainDrain stopTrue 50 compsC2).checked = some 0 := by
  have h := empty_run_ratio_zero.2 stopTrue 50 compsC2 rfl
  exact ⟨rfl, h.1, h.2⟩
